import Mathlib

/-!
Verification development for `feed.py`: the `Entry` record type, the
`ModuleCache` TTL store and the `Feed` task engine (classification lists,
purges, priority-ordered module dispatch and the event loop).

Conventions of the embedding:
* Python dicts are association lists (`List (String × β)`); insertion order is
  kept, assignment overwrites in place, `pop` of a missing key (KeyError) is
  `Option.none`.
* Dates are integer day numbers: `datetime.today()` becomes an explicit
  `today : Int` argument, and the day difference `delta.days` becomes plain
  integer subtraction (both `stored` and `today` are date-granular).
* Entries in the classification lists are identified by a `Nat` id;
  list membership by equality in the Python source is membership here.
* A module call either returns, raises `ModuleWarning`, or raises an
  unhandled exception; this is the `Outcome` type.
-/

/-- A Python value: the payloads stored in the module cache and in
configuration mappings. `pydict` covers the record dicts the cache builds. -/
inductive PyVal where
  | pynone : PyVal
  | pybool : Bool → PyVal
  | pyint : Int → PyVal
  | pystr : String → PyVal
  | pydict : List (String × PyVal) → PyVal

/-- Python `d.get(k)` on an association list: first binding wins. -/
def alistGet {β : Type} : List (String × β) → String → Option β
  | [], _ => Option.none
  | p :: rest, k => if p.1 = k then some p.2 else alistGet rest k

/-- Python `d[k] = v`: overwrite the existing binding in place, else append
(dicts keep insertion order). -/
def alistSet {β : Type} : List (String × β) → String → β → List (String × β)
  | [], k, v => [(k, v)]
  | p :: rest, k, v => if p.1 = k then (k, v) :: rest else p :: alistSet rest k v

/-- Python `d.pop(k)`: remove the binding and return it; `Option.none` models
the KeyError raised when the key is absent. -/
def alistPop {β : Type} : List (String × β) → String → Option (β × List (String × β))
  | [], _ => Option.none
  | p :: rest, k =>
    if p.1 = k then some (p.2, rest)
    else (alistPop rest k).map (fun r => (r.1, p :: r.2))

/-- Python `d.has_key(k)`. -/
def alistHasKey {β : Type} (l : List (String × β)) (k : String) : Bool :=
  (alistGet l k).isSome

/-! ## Entry

`Entry(dict)` with the `__setitem__` interception for `url`/`original_url`
and `safe_str`.  Entry values are modeled as the strings the claims concern
(titles and urls). -/

/-- An entry: a string-keyed dict. -/
abbrev Entry := List (String × String)

/-- `Entry.__setitem__`: if the key is `url` and `original_url` is not yet
present, first store the value under `original_url` (that inner assignment
goes through `__setitem__` again with key `original_url`, which is a plain
dict write); then perform the dict write for the key itself. -/
def Entry.setItem (e : Entry) (k v : String) : Entry :=
  let e1 := if k = "url" ∧ alistHasKey e "original_url" = false
            then alistSet e "original_url" v else e
  alistSet e1 k v

/-- Apply a sequence of `__setitem__` writes in order. -/
def Entry.applyWrites (e : Entry) (ws : List (String × String)) : Entry :=
  ws.foldl (fun acc p => Entry.setItem acc p.1 p.2) e

/-- The value of the first write to key `url` in a write sequence, if any. -/
def firstUrlWrite (ws : List (String × String)) : Option String :=
  match ws with
  | [] => Option.none
  | p :: rest => if p.1 = "url" then some p.2 else firstUrlWrite rest

/-- `Entry.safe_str`: `"%s | %s" % (self['title'], self['url'])`.  Both
subscripts are plain dict lookups, so a missing `title` or a missing `url`
raises KeyError; the raise is modeled as `Option.none`. -/
def Entry.safe_str (e : Entry) : Option String :=
  match alistGet e "title" with
  | Option.none => Option.none
  | some t =>
    match alistGet e "url" with
    | Option.none => Option.none
    | some u => some (t ++ " | " ++ u)

/-! ## ModuleCache

The active namespace `self._cache` is a dict from keys to record dicts
`\x7b'stored': day, 'days': ttl, 'value': v\x7d`; the whole `self.__storage` is a
dict from namespace names to such caches. -/

/-- The active namespace of a `ModuleCache`. -/
abbrev Cache := List (String × PyVal)

/-- The underlying multi-namespace storage of a `ModuleCache`. -/
abbrev Storage := List (String × Cache)

namespace ModuleCache

/-- The record dict `store` builds: stored date, ttl in days, the value. -/
def mkItem (today days : Int) (v : PyVal) : PyVal :=
  PyVal.pydict [("stored", PyVal.pyint today), ("days", PyVal.pyint days), ("value", v)]

/-- `ModuleCache.store(key, value, days)`: unconditional upsert of a fresh
record with `stored = today`. -/
def store (c : Cache) (today : Int) (key : String) (value : PyVal) (days : Int) : Cache :=
  alistSet c key (mkItem today days value)

/-- `ModuleCache.get(key, default)`: missing key returns the default; on a
hit the record's `stored` date is refreshed to today (read extends life) and
the record's `value` field is returned, or the default if the `value` field
is missing (the defensive corruption check).  A record that is not a dict
would make `item['stored'] = ...` raise; that is `Option.none` (it cannot
arise through `store`). -/
def get (c : Cache) (today : Int) (key : String) (default : PyVal) :
    Option (Cache × PyVal) :=
  match alistGet c key with
  | Option.none => some (c, default)
  | some (PyVal.pydict d) =>
    let d2 := alistSet d "stored" (PyVal.pyint today)
    some (alistSet c key (PyVal.pydict d2), (alistGet d2 "value").getD default)
  | some _ => Option.none

/-- `ModuleCache.remove(key)`: `self._cache.pop(key)` — returns the removed
record (the whole item dict) and the remaining cache; KeyError on a missing
key is `Option.none`. -/
def remove (c : Cache) (key : String) : Option (PyVal × Cache) :=
  alistPop c key

/-- Is a record past its expiration date?  `delta.days > item['days']` with
dates as day numbers.  Records are always built by `store`; a malformed
record (impossible through the API) is treated as unexpired. -/
def itemExpired (today : Int) (item : PyVal) : Bool :=
  match item with
  | PyVal.pydict d =>
    match alistGet d "stored", alistGet d "days" with
    | some (PyVal.pyint s), some (PyVal.pyint dys) => decide (today - s > dys)
    | _, _ => false
  | _ => false

/-- `ModuleCache.__purge`: drop every record of the active namespace that has
passed its expiration date. -/
def purge (c : Cache) (today : Int) : Cache :=
  c.filter (fun p => ! itemExpired today p.2)

/-- `ModuleCache.set_namespace(name)`: select (creating if missing) the
namespace and run the purge pass over it. -/
def set_namespace (s : Storage) (today : Int) (name : String) : Storage :=
  alistSet s name (purge ((alistGet s name).getD []) today)

end ModuleCache

/-! ## Feed: classification state and purges -/

/-- Entries are compared by equality for classification-list membership; an
id stands for one entry object. -/
abbrev EntryId := Nat

/-- The per-run mutable state of a `Feed` that the claims concern: the live
`entries` list, the four classification lists, the `__purged` counter, the
`__abort` flag, and the record of `manager.add_failed` notifications. -/
structure FeedState where
  entries : List EntryId
  accepted : List EntryId
  filtered : List EntryId
  rejected : List EntryId
  failed : List EntryId
  purged : Nat
  abortFlag : Bool
  sink : List EntryId
deriving DecidableEq, Repr

namespace Feed

/-- `Feed.__purge(entries, not_in_list, count)`: walk a copy of
`self.entries` and remove every entry that is in `lst` and not in `notIn`;
when `count` is set, `self.__purged` increments once per removal. -/
def purge (s : FeedState) (lst notIn : List EntryId) (count : Bool) : FeedState :=
  { s with
    entries := s.entries.filter (fun e => ! decide (e ∈ lst ∧ e ∉ notIn)),
    purged := s.purged +
      (if count then (s.entries.filter (fun e => decide (e ∈ lst ∧ e ∉ notIn))).length
       else 0) }

/-- `Feed.__purge_rejected`: `self.__purge(self.rejected)` — note that both
defaults apply: the exclusion list is empty and `count` is `True`. -/
def purge_rejected (s : FeedState) : FeedState :=
  purge s s.rejected [] true

/-- `Feed.__purge_failed`: `self.__purge(self.failed, [], False)`. -/
def purge_failed (s : FeedState) : FeedState :=
  purge s s.failed [] false

/-- `Feed._purge`: the end-of-event filtered purge,
`self.__purge(self.filtered, self.accepted)` with `count = True`. -/
def purge_filtered (s : FeedState) : FeedState :=
  purge s s.filtered s.accepted true

/-- `Feed.accept`: append to `accepted` unless already there; an entry that
was in `filtered` is removed from it (accept overrides filter). -/
def accept (s : FeedState) (e : EntryId) : FeedState :=
  if e ∈ s.accepted then s
  else { s with accepted := s.accepted ++ [e], filtered := s.filtered.erase e }

/-- `Feed.filter`: append to `filtered` unless already filtered or already
accepted. -/
def filter (s : FeedState) (e : EntryId) : FeedState :=
  if e ∈ s.filtered ∨ e ∈ s.accepted then s
  else { s with filtered := s.filtered ++ [e] }

/-- `Feed.reject`: append to `rejected` unless already there. -/
def reject (s : FeedState) (e : EntryId) : FeedState :=
  if e ∈ s.rejected then s
  else { s with rejected := s.rejected ++ [e] }

/-- `Feed.fail`: append to `failed` unless already there, and notify
`manager.add_failed` (the sink) exactly on that append. -/
def fail (s : FeedState) (e : EntryId) : FeedState :=
  if e ∈ s.failed then s
  else { s with failed := s.failed ++ [e], sink := s.sink ++ [e] }

/-- `Feed.abort`: set the `__abort` flag.  The out-of-band dispatch of the
`abort` event that `Feed.abort` also performs only invokes `abort`-event
handlers and cannot clear the flag; it is not part of the state model. -/
def abortOp (s : FeedState) : FeedState :=
  { s with abortFlag := true }

end Feed

/-! ## Feed: module dispatch -/

/-- How a module call returns: normally, raising `ModuleWarning` (caught and
logged, execution continues), or raising an unhandled exception. -/
inductive Outcome where
  | ok : Outcome
  | warning : Bool → Outcome
  | exn : Outcome
deriving DecidableEq, Repr

/-- The feed-state operations a module performs through the official API
during one call. -/
inductive FeedAction where
  | accept : EntryId → FeedAction
  | filter : EntryId → FeedAction
  | reject : EntryId → FeedAction
  | fail : EntryId → FeedAction
  | addEntry : EntryId → FeedAction
deriving DecidableEq, Repr

/-- Apply one module action to the feed state. -/
def applyAction (s : FeedState) : FeedAction → FeedState
  | FeedAction.accept e => Feed.accept s e
  | FeedAction.filter e => Feed.filter s e
  | FeedAction.reject e => Feed.reject s e
  | FeedAction.fail e => Feed.fail s e
  | FeedAction.addEntry e => { s with entries := s.entries ++ [e] }

/-- Apply a sequence of module actions in order. -/
def applyActions (s : FeedState) (l : List FeedAction) : FeedState :=
  l.foldl applyAction s

/-- Registry metadata plus behavior of one module: name, whether built-in,
the declared per-event default priorities, and an abstraction of
`module['instance']`: for each event, the actions the module performs on the
feed and how the call returns. -/
structure FModule where
  name : String
  builtin : Bool
  priorities : List (String × Int)
  behavior : String → List FeedAction × Outcome

/-- One value of the task configuration mapping: a scalar, or a structured
sub-configuration (whose integer-valued fields include the optional
`priority` override). -/
inductive ConfVal where
  | scalar : String → ConfVal
  | cdict : List (String × Int) → ConfVal
deriving DecidableEq, Repr

/-- A task configuration: module keyword to configured value. -/
abbrev Config := List (String × ConfVal)

namespace Feed

/-- `Feed.__get_priority`: the declared default for the event (0 when the
module declares none), overridden by the `priority` field of the module's
per-task configuration when that configuration is a mapping containing
`priority`. -/
def get_priority (cfg : Config) (m : FModule) (event : String) : Int :=
  let p := (alistGet m.priorities event).getD 0
  match alistGet cfg m.name with
  | some (ConfVal.cdict d) => (alistGet d "priority").getD p
  | _ => p

/-- The ascending priority comparison `Feed.__sort_modules` induces. -/
def priorityLE (cfg : Config) (event : String) (a b : FModule) : Prop :=
  get_priority cfg a event ≤ get_priority cfg b event

instance (cfg : Config) (event : String) : DecidableRel (priorityLE cfg event) :=
  fun a b => inferInstanceAs
    (Decidable (get_priority cfg a event ≤ get_priority cfg b event))

/-- The order Feed.__run_event walks the modules in: `modules.sort(...)`
with the ascending priority comparison (Python list sort is a stable
ascending sort, which insertion sort reproduces), then `modules.reverse()`. -/
def dispatchOrder (cfg : Config) (event : String) (ms : List FModule) : List FModule :=
  (ms.insertionSort (priorityLE cfg event)).reverse

/-- A module is invoked iff the configuration mentions its keyword or it is
built-in. -/
def enabled (cfg : Config) (m : FModule) : Bool :=
  alistHasKey cfg m.name || m.builtin

/-- The loop body of `Feed.__run_event` over the already-sorted module list:
skip modules that are neither configured nor built-in; invoke the rest; an
unhandled exception logs and calls `self.abort()`; after every invocation run
the rejected purge then the failed purge; stop as soon as the abort flag is
set.  Returns the final state and the names of the invoked modules in
order.  (The cache namespace switch performed before each call only touches
the cache component, modeled separately by `ModuleCache`.) -/
def runModules (cfg : Config) (event : String) : List FModule → FeedState → FeedState × List String
  | [], s => (s, [])
  | m :: rest, s =>
    if enabled cfg m then
      let r := m.behavior event
      let s1 := applyActions s r.1
      let s2 := match r.2 with
        | Outcome.exn => abortOp s1
        | _ => s1
      let s3 := purge_failed (purge_rejected s2)
      if s3.abortFlag then (s3, [m.name])
      else
        let rr := runModules cfg event rest s3
        (rr.1, m.name :: rr.2)
    else
      runModules cfg event rest s

/-- `Feed.__run_event`: fetch the modules registered for the event, sort
them by effective priority, and run the loop. -/
def run_event (registry : String → List FModule) (cfg : Config) (event : String)
    (s : FeedState) : FeedState × List String :=
  runModules cfg event (dispatchOrder cfg event (registry event)) s

/-- The event loop of `Feed.execute` (configuration validation and the
validate-only early return happen before this loop): in learn mode the
`download` and `output` events are skipped entirely; otherwise run the event,
then the filtered purge, and stop if the abort flag is set.  Returns the
final state and the (event, module) invocations in order. -/
def runEvents (registry : String → List FModule) (cfg : Config) (learn : Bool) :
    List String → FeedState → FeedState × List (String × String)
  | [], s => (s, [])
  | ev :: rest, s =>
    if learn ∧ (ev = "download" ∨ ev = "output") then
      runEvents registry cfg learn rest s
    else
      let r := run_event registry cfg ev s
      let s2 := purge_filtered r.1
      if s2.abortFlag then (s2, r.2.map (fun n => (ev, n)))
      else
        let rr := runEvents registry cfg learn rest s2
        (rr.1, r.2.map (fun n => (ev, n)) ++ rr.2)

end Feed

/-! ## Event-step traces and concrete modules -/

/-- One step inside an event as seen by an entry: a module performs one
official-API action, or a module invocation ends and `__run_event` runs the
rejected purge followed by the failed purge. -/
inductive EventStep where
  | act : FeedAction → EventStep
  | modBoundary : EventStep
deriving DecidableEq, Repr

/-- Apply one event step to the feed state. -/
def applyStep (s : FeedState) : EventStep → FeedState
  | EventStep.act a => applyAction s a
  | EventStep.modBoundary => Feed.purge_failed (Feed.purge_rejected s)

/-- Apply a sequence of event steps in order. -/
def applySteps (s : FeedState) (l : List EventStep) : FeedState :=
  l.foldl applyStep s

/-- A step that neither rejects nor fails the entry `e`. -/
def goodStep (e : EntryId) (st : EventStep) : Prop :=
  st ≠ EventStep.act (FeedAction.reject e) ∧ st ≠ EventStep.act (FeedAction.fail e)

instance (e : EntryId) (st : EventStep) : Decidable (goodStep e st) :=
  inferInstanceAs (Decidable (st ≠ EventStep.act (FeedAction.reject e)
    ∧ st ≠ EventStep.act (FeedAction.fail e)))

/-- The invariant that carries an entry through an event: live in `entries`,
never rejected or failed, not filtered whenever accepted, and filtered at
most once. -/
def entryLive (e : EntryId) (s : FeedState) : Prop :=
  e ∈ s.entries ∧ e ∉ s.rejected ∧ e ∉ s.failed
    ∧ (e ∈ s.accepted → e ∉ s.filtered) ∧ s.filtered.count e ≤ 1

/-- A built-in module named `a`, no declared priorities, a handler that does
nothing and returns normally. -/
def modA : FModule := ⟨"a", true, [], fun _ => ([], Outcome.ok)⟩

/-- A built-in module named `b`, no declared priorities, a handler that does
nothing and returns normally. -/
def modB : FModule := ⟨"b", true, [], fun _ => ([], Outcome.ok)⟩

/-- A built-in module whose handler raises an unhandled exception on every
event. -/
def modBoom : FModule := ⟨"boom", true, [], fun _ => ([], Outcome.exn)⟩

/-- The names of the modules of `ms` that the configuration enables, in
order: the modules `__run_event` would invoke from the list `ms`. -/
def enabledNames (cfg : Config) (ms : List FModule) : List String :=
  (ms.filter (fun m => Feed.enabled cfg m)).map FModule.name

/-! ## Association-list lemmas -/

theorem alistGet_set_self {β : Type} (l : List (String × β)) (k : String) (v : β) :
    alistGet (alistSet l k v) k = some v := by
  induction l with
  | nil => simp [alistSet, alistGet]
  | cons p rest ih =>
    by_cases h : p.1 = k
    · simp [alistSet, h, alistGet]
    · simp [alistSet, h, alistGet, ih]

theorem alistGet_set_ne {β : Type} {l : List (String × β)} {k k2 : String} (v : β)
    (h : k ≠ k2) : alistGet (alistSet l k v) k2 = alistGet l k2 := by
  induction l with
  | nil => simp [alistSet, alistGet, h]
  | cons p rest ih =>
    by_cases hp : p.1 = k
    · simp [alistSet, hp, alistGet, h]
    · simp [alistSet, hp, alistGet, ih]

theorem alistGet_eq_none_iff {β : Type} {l : List (String × β)} {k : String} :
    alistGet l k = Option.none ↔ ∀ p ∈ l, p.1 ≠ k := by
  induction l with
  | nil => simp [alistGet]
  | cons p rest ih => by_cases h : p.1 = k <;> simp [alistGet, h, ih]

/-! ## C6: original_url capture -/

theorem setItem_orig_of_url {e : Entry} (v : String)
    (h : alistHasKey e "original_url" = false) :
    alistGet (Entry.setItem e "url" v) "original_url" = some v := by
  unfold Entry.setItem
  rw [if_pos ⟨rfl, h⟩, alistGet_set_ne _ (by decide)]
  exact alistGet_set_self _ _ _

theorem setItem_orig_keep {e : Entry} {k : String} (v : String)
    (hk : k ≠ "original_url")
    (hsome : (alistGet e "original_url").isSome = true) :
    alistGet (Entry.setItem e k v) "original_url" = alistGet e "original_url" := by
  unfold Entry.setItem
  have hneg : ¬ (k = "url" ∧ alistHasKey e "original_url" = false) := by
    rintro ⟨-, h2⟩
    rw [alistHasKey, hsome] at h2
    cases h2
  rw [if_neg hneg]
  exact alistGet_set_ne _ hk

theorem setItem_orig_other {e : Entry} {k : String} (v : String)
    (hk : k ≠ "original_url") (hurl : k ≠ "url") :
    alistGet (Entry.setItem e k v) "original_url" = alistGet e "original_url" := by
  unfold Entry.setItem
  rw [if_neg (by rintro ⟨h1, -⟩; exact hurl h1)]
  exact alistGet_set_ne _ hk

theorem applyWrites_cons (e : Entry) (p : String × String) (ws : List (String × String)) :
    Entry.applyWrites e (p :: ws) = Entry.applyWrites (Entry.setItem e p.1 p.2) ws := rfl

theorem applyWrites_orig_persist {e : Entry} {w : String} (ws : List (String × String))
    (hws : ∀ p ∈ ws, p.1 ≠ "original_url")
    (h : alistGet e "original_url" = some w) :
    alistGet (Entry.applyWrites e ws) "original_url" = some w := by
  induction ws generalizing e with
  | nil => exact h
  | cons p rest ih =>
    rw [applyWrites_cons]
    refine ih (fun q hq => hws q (List.mem_cons_of_mem _ hq)) ?_
    rw [setItem_orig_keep _ (hws p (List.mem_cons_self _ _)) (by rw [h]; rfl)]
    exact h

theorem applyWrites_orig_eq_firstUrl {e : Entry} (ws : List (String × String))
    (hws : ∀ p ∈ ws, p.1 ≠ "original_url")
    (h : alistHasKey e "original_url" = false) :
    alistGet (Entry.applyWrites e ws) "original_url" = firstUrlWrite ws := by
  induction ws generalizing e with
  | nil =>
    cases hx : alistGet e "original_url" with
    | none => simpa [Entry.applyWrites, firstUrlWrite] using hx
    | some w => rw [alistHasKey, hx] at h; cases h
  | cons p rest ih =>
    rw [applyWrites_cons]
    by_cases hurl : p.1 = "url"
    · have hcap : alistGet (Entry.setItem e p.1 p.2) "original_url" = some p.2 := by
        rw [hurl]; exact setItem_orig_of_url _ h
      rw [applyWrites_orig_persist rest (fun q hq => hws q (List.mem_cons_of_mem _ hq)) hcap]
      simp [firstUrlWrite, hurl]
    · have hkeep : alistGet (Entry.setItem e p.1 p.2) "original_url"
          = alistGet e "original_url" :=
        setItem_orig_other p.2 (hws p (List.mem_cons_self _ _)) hurl
      have h2 : alistHasKey (Entry.setItem e p.1 p.2) "original_url" = false := by
        rw [alistHasKey, hkeep, ← alistHasKey]; exact h
      rw [ih (fun q hq => hws q (List.mem_cons_of_mem _ hq)) h2]
      simp [firstUrlWrite, hurl]

/-- C6: starting from an empty entry and applying any sequence of
`__setitem__` writes none of which writes the internal key `original_url`
directly, the final value of `original_url` is exactly the value of the
first write to `url` (absent when `url` was never written): the first `url`
assignment establishes `original_url`, later `url` assignments (of any
value) leave it unchanged, and writes to other keys never touch it. -/
theorem C6_first_url_sets_original_url (ws : List (String × String))
    (hws : ∀ p ∈ ws, p.1 ≠ "original_url") :
    alistGet (Entry.applyWrites [] ws) "original_url" = firstUrlWrite ws :=
  applyWrites_orig_eq_firstUrl ws hws rfl

/-- Witness for C6 on a concrete write sequence: title, then two different
`url` writes and an unrelated key; `original_url` holds the first url. -/
theorem C6_witness :
    alistGet (Entry.applyWrites []
      [("title", "t"), ("url", "a"), ("url", "b"), ("foo", "c")]) "original_url"
      = some "a" :=
  (C6_first_url_sets_original_url
    [("title", "t"), ("url", "a"), ("url", "b"), ("foo", "c")] (by decide)).trans (by rfl)

/-! ## C8: safe_str -/

/-- C8 counterexample: an entry that contains `title` but no `url`; contrary
to the claim, `safe_str` does not render an empty url — the plain dict
subscript `self['url']` raises KeyError (modeled as `Option.none`). -/
theorem C8_counterexample :
    alistHasKey [("title", "t")] "title" = true
    ∧ Entry.safe_str [("title", "t")] = Option.none :=
  ⟨rfl, rfl⟩

/-- C8 amended: for an entry containing `title`, `safe_str` returns the
`"title | url"` string when `url` is present, and fails (KeyError) when
`url` is absent. -/
theorem C8_title_url_string (e : Entry) (t : String)
    (ht : alistGet e "title" = some t) :
    Entry.safe_str e = (alistGet e "url").map (fun u => t ++ " | " ++ u) := by
  unfold Entry.safe_str
  rw [ht]
  cases alistGet e "url" <;> rfl

/-- Witness for the amended C8 at a concrete entry with both keys. -/
theorem C8_witness :
    Entry.safe_str [("title", "t"), ("url", "u")] = some "t | u" :=
  (C8_title_url_string [("title", "t"), ("url", "u")] "t" rfl).trans (by rfl)

/-! ## C5: store / get / TTL purge -/

theorem mem_keys_alistSet {β : Type} {l : List (String × β)} {k k2 : String} (v : β) :
    k2 ∈ (alistSet l k v).map Prod.fst ↔ k2 = k ∨ k2 ∈ l.map Prod.fst := by
  induction l with
  | nil => simp [alistSet]
  | cons p rest ih =>
    by_cases hp : p.1 = k
    · subst hp
      simp [alistSet]
    · simp [alistSet, hp, ih]
      tauto

theorem alistSet_keys_nodup {β : Type} {l : List (String × β)} (k : String) (v : β)
    (h : (l.map Prod.fst).Nodup) : ((alistSet l k v).map Prod.fst).Nodup := by
  induction l with
  | nil => simp [alistSet]
  | cons p rest ih =>
    rw [List.map_cons, List.nodup_cons] at h
    by_cases hp : p.1 = k
    · subst hp
      simpa [alistSet, List.nodup_cons] using h
    · rw [alistSet, if_neg hp, List.map_cons, List.nodup_cons]
      refine ⟨fun hm => ?_, ih h.2⟩
      rcases (mem_keys_alistSet v).mp hm with h1 | h1
      · exact hp h1
      · exact h.1 h1

theorem alistGet_filter_none {β : Type} {l : List (String × β)} {key : String}
    (f : String × β → Bool) (h : alistGet l key = Option.none) :
    alistGet (l.filter f) key = Option.none := by
  rw [alistGet_eq_none_iff] at h ⊢
  exact fun q hq => h q (List.mem_of_mem_filter hq)

/-- The purge pass at the lookup level: a key's record survives iff it was
there and had not passed its expiration date. -/
theorem alistGet_purge (c : Cache) (t2 : Int) (key : String)
    (hnd : (c.map Prod.fst).Nodup) :
    alistGet (ModuleCache.purge c t2) key =
      match alistGet c key with
      | some item =>
        if ModuleCache.itemExpired t2 item = true then Option.none else some item
      | Option.none => Option.none := by
  induction c with
  | nil => rfl
  | cons p rest ih =>
    rw [List.map_cons, List.nodup_cons] at hnd
    by_cases hk : p.1 = key
    · subst hk
      have hrest : alistGet rest p.1 = Option.none :=
        alistGet_eq_none_iff.mpr (fun q hq hq1 => hnd.1 (hq1 ▸ List.mem_map_of_mem _ hq))
      by_cases hexp : ModuleCache.itemExpired t2 p.2 = true
      · have : alistGet (ModuleCache.purge rest t2) p.1 = Option.none :=
          alistGet_filter_none _ hrest
        simp [ModuleCache.purge, List.filter_cons, hexp, alistGet] at this ⊢
        exact this
      · simp [ModuleCache.purge, List.filter_cons, hexp, alistGet]
    · by_cases hexp : ModuleCache.itemExpired t2 p.2 = true
      · simp [ModuleCache.purge, List.filter_cons, hexp, alistGet, hk] at ih ⊢
        exact ih hnd.2
      · simp [ModuleCache.purge, List.filter_cons, hexp, alistGet, hk] at ih ⊢
        exact ih hnd.2

/-- C5: after `store(k, v, days = 10)` an immediate `get(k)` returns `v`;
when the clock has advanced so that the record's age exceeds 10 days, the
namespace purge pass (the one `set_namespace` runs) evicts the record and a
subsequent `get(k)` returns the caller-supplied default; and the purge pass
keeps a key's record iff it had not passed its stored TTL. -/
theorem C5_store_get_purge (c : Cache) (t t2 : Int) (k : String) (v d : PyVal)
    (hnd : (c.map Prod.fst).Nodup) (hadv : t2 - t > 10) :
    ((ModuleCache.get (ModuleCache.store c t k v 10) t k d).map Prod.snd = some v)
    ∧ alistGet (ModuleCache.purge (ModuleCache.store c t k v 10) t2) k = Option.none
    ∧ ((ModuleCache.get (ModuleCache.purge (ModuleCache.store c t k v 10) t2) t2 k d).map
        Prod.snd = some d)
    ∧ (∀ key, alistGet (ModuleCache.purge (ModuleCache.store c t k v 10) t2) key =
        match alistGet (ModuleCache.store c t k v 10) key with
        | some item =>
          if ModuleCache.itemExpired t2 item = true then Option.none else some item
        | Option.none => Option.none) := by
  have hnd2 : ((ModuleCache.store c t k v 10).map Prod.fst).Nodup :=
    alistSet_keys_nodup k _ hnd
  have hchar : ∀ key, alistGet (ModuleCache.purge (ModuleCache.store c t k v 10) t2) key =
      match alistGet (ModuleCache.store c t k v 10) key with
      | some item =>
        if ModuleCache.itemExpired t2 item = true then Option.none else some item
      | Option.none => Option.none :=
    fun key => alistGet_purge _ t2 key hnd2
  have hstore : alistGet (ModuleCache.store c t k v 10) k
      = some (ModuleCache.mkItem t 10 v) :=
    alistGet_set_self c k _
  have hexp : ModuleCache.itemExpired t2 (ModuleCache.mkItem t 10 v) = true := by
    simp [ModuleCache.itemExpired, ModuleCache.mkItem, alistGet]
    omega
  have hgone : alistGet (ModuleCache.purge (ModuleCache.store c t k v 10) t2) k
      = Option.none := by
    rw [hchar k, hstore]
    simp [hexp]
  refine ⟨?_, hgone, ?_, hchar⟩
  · simp [ModuleCache.get, hstore, ModuleCache.mkItem, alistSet, alistGet]
  · simp [ModuleCache.get, hgone]

/-- Witness for C5: empty cache, store at day 0, read back at day 0, purge
at day 11. -/
theorem C5_witness :
    ((ModuleCache.get (ModuleCache.store [] 0 "k" (PyVal.pyint 5) 10) 0 "k"
        PyVal.pynone).map Prod.snd = some (PyVal.pyint 5))
    ∧ alistGet (ModuleCache.purge (ModuleCache.store [] 0 "k" (PyVal.pyint 5) 10) 11) "k"
        = Option.none :=
  ⟨(C5_store_get_purge [] 0 11 "k" (PyVal.pyint 5) PyVal.pynone (by simp) (by decide)).1,
   (C5_store_get_purge [] 0 11 "k" (PyVal.pyint 5) PyVal.pynone (by simp) (by decide)).2.1⟩

/-! ## C9: remove -/

theorem alistPop_of_get_some {β : Type} {l : List (String × β)} {k : String} {v : β}
    (h : alistGet l k = some v) :
    ∃ l2, alistPop l k = some (v, l2)
      ∧ (∀ k2, k2 ≠ k → alistGet l2 k2 = alistGet l k2)
      ∧ ((l.map Prod.fst).Nodup → alistGet l2 k = Option.none) := by
  induction l with
  | nil => cases h
  | cons p rest ih =>
    by_cases hp : p.1 = k
    · rw [alistGet, if_pos hp] at h
      have hv : p.2 = v := Option.some.inj h
      subst hv
      refine ⟨rest, ?_, ?_, ?_⟩
      · rw [alistPop, if_pos hp]
      · intro k2 hk2
        have h2 : alistGet (p :: rest) k2 = alistGet rest k2 := by
          rw [alistGet, if_neg (fun hc => hk2 (hc.symm.trans hp))]
        exact h2.symm
      · intro hnd
        rw [List.map_cons, List.nodup_cons] at hnd
        exact alistGet_eq_none_iff.mpr
          (fun q hq hq1 => hnd.1 (hp ▸ hq1 ▸ List.mem_map_of_mem _ hq))
    · rw [alistGet, if_neg hp] at h
      obtain ⟨l2, hpop, hne, hnone⟩ := ih h
      refine ⟨p :: l2, ?_, ?_, ?_⟩
      · rw [alistPop, if_neg hp, hpop]; rfl
      · intro k2 hk2
        by_cases hpk : p.1 = k2
        · rw [alistGet, if_pos hpk, alistGet, if_pos hpk]
        · rw [alistGet, if_neg hpk, alistGet, if_neg hpk]
          exact hne k2 hk2
      · intro hnd
        rw [List.map_cons, List.nodup_cons] at hnd
        rw [alistGet, if_neg hp]
        exact hnone hnd.2

theorem alistPop_of_get_none {β : Type} {l : List (String × β)} {k : String}
    (h : alistGet l k = Option.none) : alistPop l k = Option.none := by
  induction l with
  | nil => rfl
  | cons p rest ih =>
    rw [alistGet] at h
    by_cases hp : p.1 = k
    · rw [if_pos hp] at h; cases h
    · rw [if_neg hp] at h
      rw [alistPop, if_neg hp, ih h]
      rfl

/-- C9 counterexample: store the bare integer 5 under a key and remove the
key; `remove` hands back the whole record dict, which is not the stored
value 5 — contrary to the claim that it returns the value previously passed
to `store`. -/
theorem C9_counterexample :
    (ModuleCache.remove (ModuleCache.store [] 0 "k" (PyVal.pyint 5) 45) "k").map Prod.fst
      ≠ some (PyVal.pyint 5) := by
  intro h
  rw [show (ModuleCache.remove (ModuleCache.store [] 0 "k" (PyVal.pyint 5) 45) "k").map
        Prod.fst = some (ModuleCache.mkItem 0 45 (PyVal.pyint 5)) from rfl] at h
  exact PyVal.noConfusion (Option.some.inj h)

/-- C9 amended: for a present key, `remove` deletes it (other keys untouched)
and returns the removed internal record dict — whose `value` field holds the
value passed to `store` — not the bare stored value; for an absent key,
`remove` fails with the KeyError of `dict.pop` and the cache is unchanged. -/
theorem C9_remove_returns_record (c : Cache) (k : String)
    (hnd : (c.map Prod.fst).Nodup) :
    (∀ item, alistGet c k = some item →
      ∃ c2, ModuleCache.remove c k = some (item, c2)
        ∧ alistGet c2 k = Option.none
        ∧ ∀ k2, k2 ≠ k → alistGet c2 k2 = alistGet c k2)
    ∧ (alistGet c k = Option.none → ModuleCache.remove c k = Option.none)
    ∧ (∀ t dys v, (ModuleCache.remove (ModuleCache.store c t k v dys) k).map Prod.fst
        = some (ModuleCache.mkItem t dys v)) := by
  refine ⟨?_, ?_, ?_⟩
  · intro item hitem
    obtain ⟨c2, hpop, hne, hnone⟩ := alistPop_of_get_some hitem
    exact ⟨c2, hpop, hnone hnd, hne⟩
  · exact alistPop_of_get_none
  · intro t dys v
    obtain ⟨c2, hpop, -, -⟩ := alistPop_of_get_some (alistGet_set_self c k
      (ModuleCache.mkItem t dys v))
    rw [ModuleCache.remove, ModuleCache.store, hpop]
    rfl

/-- Witness for the amended C9: removing an absent key fails, and removing a
just-stored key returns the record dict. -/
theorem C9_witness :
    ModuleCache.remove [("k", PyVal.pyint 7)] "x" = Option.none
    ∧ (ModuleCache.remove (ModuleCache.store [] 0 "k" (PyVal.pyint 5) 45) "k").map Prod.fst
        = some (ModuleCache.mkItem 0 45 (PyVal.pyint 5)) :=
  ⟨(C9_remove_returns_record [("k", PyVal.pyint 7)] "x" (by simp)).2.1 rfl,
   (C9_remove_returns_record [] "k" (by simp)).2.2 0 45 (PyVal.pyint 5)⟩

/-! ## C4: rejection is permanent -/

theorem Feed.reject_mem_rejected (s : FeedState) (e : EntryId) :
    e ∈ (Feed.reject s e).rejected := by
  rw [Feed.reject]
  split
  · assumption
  · simp

theorem Feed.accept_rejected_eq (s : FeedState) (e : EntryId) :
    (Feed.accept s e).rejected = s.rejected := by
  rw [Feed.accept]
  split <;> rfl

theorem not_mem_purge_rejected {s : FeedState} {e : EntryId} (h : e ∈ s.rejected) :
    e ∉ (Feed.purge_rejected s).entries := by
  intro hmem
  rw [Feed.purge_rejected, Feed.purge] at hmem
  simp only [List.mem_filter, Bool.not_eq_true', decide_eq_false_iff_not] at hmem
  exact hmem.2 ⟨h, List.not_mem_nil e⟩

/-- C4: an entry in `rejected` is removed from `entries` by the rejected
purge with no exclusion for accepted entries, and an entry that is both
accepted and rejected — in either order — is indeed in `rejected` and hence
absent from `entries` after the next rejected purge. -/
theorem C4_reject_overrides_accept (s : FeedState) (e : EntryId) :
    (e ∈ s.rejected → e ∉ (Feed.purge_rejected s).entries)
    ∧ e ∉ (Feed.purge_rejected (Feed.reject (Feed.accept s e) e)).entries
    ∧ e ∉ (Feed.purge_rejected (Feed.accept (Feed.reject s e) e)).entries := by
  refine ⟨fun h => not_mem_purge_rejected h, ?_, ?_⟩
  · exact not_mem_purge_rejected (Feed.reject_mem_rejected _ e)
  · exact not_mem_purge_rejected
      (by rw [Feed.accept_rejected_eq]; exact Feed.reject_mem_rejected s e)

/-- Witness for C4 at a concrete state with entry 2 accepted and rejected. -/
theorem C4_witness :
    (2 ∉ (Feed.purge_rejected ⟨[1, 2], [2], [], [2], [], 0, false, []⟩).entries)
    ∧ 2 ∉ (Feed.purge_rejected
        (Feed.reject (Feed.accept ⟨[1, 2], [], [], [], [], 0, false, []⟩ 2) 2)).entries :=
  ⟨(C4_reject_overrides_accept ⟨[1, 2], [2], [], [2], [], 0, false, []⟩ 2).1 (by decide),
   (C4_reject_overrides_accept ⟨[1, 2], [], [], [], [], 0, false, []⟩ 2).2.1⟩

/-! ## C10: fail is idempotent, sink notified at most once -/

theorem Feed.fail_mem_failed (s : FeedState) (e : EntryId) :
    e ∈ (Feed.fail s e).failed := by
  rw [Feed.fail]
  split
  · assumption
  · simp

/-- C10: a second `fail` of an entry already in `failed` is a no-op — the
whole state, in particular `failed` and the `manager.add_failed` sink, is
unchanged — so `fail` is idempotent and the sink is notified at most once
per entry per run. -/
theorem C10_fail_idempotent (s : FeedState) (e : EntryId) :
    Feed.fail (Feed.fail s e) e = Feed.fail s e
    ∧ (e ∈ s.failed → Feed.fail s e = s) := by
  have hof : ∀ t : FeedState, e ∈ t.failed → Feed.fail t e = t := fun t h => by
    rw [Feed.fail, if_pos h]
  exact ⟨hof _ (Feed.fail_mem_failed s e), hof s⟩

/-- Witness for C10 at a concrete state where entry 3 has already failed. -/
theorem C10_witness :
    Feed.fail ⟨[3], [], [], [], [3], 0, false, [3]⟩ 3
      = ⟨[3], [], [], [], [3], 0, false, [3]⟩ :=
  (C10_fail_idempotent ⟨[3], [], [], [], [3], 0, false, [3]⟩ 3).2 (by decide)

/-! ## C7: which purges increment the counter -/

/-- C7 counterexample: a state whose single entry is rejected; the rejected
purge — `self.__purge(self.rejected)` with the default `count = True` —
increments the user-visible purge counter, contrary to the claim that only
the filtered purge does. -/
theorem C7_counterexample :
    (Feed.purge_rejected ⟨[1], [], [], [1], [], 0, false, []⟩).purged = 1 := by decide

/-- C7 amended: the filtered purge and the rejected purge each increment the
counter once per entry they remove; only the failed purge removes entries
without incrementing the counter. -/
theorem C7_purge_counter (s : FeedState) :
    (Feed.purge_filtered s).purged = s.purged
        + (s.entries.filter (fun e => decide (e ∈ s.filtered ∧ e ∉ s.accepted))).length
    ∧ (Feed.purge_rejected s).purged = s.purged
        + (s.entries.filter (fun e => decide (e ∈ s.rejected))).length
    ∧ (Feed.purge_failed s).purged = s.purged
    ∧ (Feed.purge_failed s).entries
        = s.entries.filter (fun e => ! decide (e ∈ s.failed)) := by
  refine ⟨rfl, ?_, rfl, ?_⟩
  · simp [Feed.purge_rejected, Feed.purge]
  · simp [Feed.purge_failed, Feed.purge]

/-! ## C3: accept rescues a filtered entry -/

theorem applySteps_append (s : FeedState) (l1 l2 : List EventStep) :
    applySteps s (l1 ++ l2) = applySteps (applySteps s l1) l2 := by
  simp [applySteps, List.foldl_append]

theorem applySteps_cons (s : FeedState) (st : EventStep) (l : List EventStep) :
    applySteps s (st :: l) = applySteps (applyStep s st) l := rfl

theorem mem_purge_entries {s : FeedState} {lst notIn : List EntryId} {b : Bool} {e : EntryId}
    (he : e ∈ s.entries) (h : e ∉ lst ∨ e ∈ notIn) :
    e ∈ (Feed.purge s lst notIn b).entries := by
  rw [Feed.purge]
  simp only [List.mem_filter]
  refine ⟨he, ?_⟩
  rcases h with h | h <;> simp [h]

theorem entryLive_applyStep {e : EntryId} {s : FeedState} {st : EventStep}
    (hs : entryLive e s) (hg : goodStep e st) : entryLive e (applyStep s st) := by
  obtain ⟨hent, hrej, hfail, himp, hcnt⟩ := hs
  cases st with
  | modBoundary =>
    exact ⟨mem_purge_entries (mem_purge_entries hent (Or.inl hrej)) (Or.inl hfail),
      hrej, hfail, himp, hcnt⟩
  | act a =>
    cases a with
    | accept e2 =>
      show entryLive e (Feed.accept s e2)
      rw [Feed.accept]
      split
      · exact ⟨hent, hrej, hfail, himp, hcnt⟩
      · refine ⟨hent, hrej, hfail, ?_, ?_⟩
        · intro hmem hinf
          rcases List.mem_append.mp hmem with h1 | h1
          · exact himp h1 ((List.erase_sublist e2 s.filtered).subset hinf)
          · have he2 : e = e2 := by simpa using h1
            subst he2
            have hzero : (s.filtered.erase e).count e = 0 := by
              rw [List.count_erase_self]
              omega
            exact (List.count_eq_zero.mp hzero) hinf
        · exact le_trans (((List.erase_sublist e2 s.filtered).count_le e)) hcnt
    | filter e2 =>
      show entryLive e (Feed.filter s e2)
      rw [Feed.filter]
      split
      · exact ⟨hent, hrej, hfail, himp, hcnt⟩
      · rename_i hguard
        push_neg at hguard
        refine ⟨hent, hrej, hfail, ?_, ?_⟩
        · intro hmem hinf
          rcases List.mem_append.mp hinf with h1 | h1
          · exact himp hmem h1
          · have he2 : e = e2 := by simpa using h1
            exact hguard.2 (he2 ▸ hmem)
        · rw [List.count_append]
          by_cases he2 : e = e2
          · subst he2
            rw [List.count_eq_zero.mpr hguard.1, List.count_singleton_self]
          · have : List.count e [e2] = 0 :=
              List.count_eq_zero.mpr (by simpa using he2)
            omega
    | reject e2 =>
      have hne : e2 ≠ e := fun h =>
        hg.1 (congrArg (fun x => EventStep.act (FeedAction.reject x)) h)
      show entryLive e (Feed.reject s e2)
      rw [Feed.reject]
      split
      · exact ⟨hent, hrej, hfail, himp, hcnt⟩
      · refine ⟨hent, ?_, hfail, himp, hcnt⟩
        intro hmem
        rcases List.mem_append.mp hmem with h1 | h1
        · exact hrej h1
        · have h2 : e = e2 := by simpa using h1
          exact hne h2.symm
    | fail e2 =>
      have hne : e2 ≠ e := fun h =>
        hg.2 (congrArg (fun x => EventStep.act (FeedAction.fail x)) h)
      show entryLive e (Feed.fail s e2)
      rw [Feed.fail]
      split
      · exact ⟨hent, hrej, hfail, himp, hcnt⟩
      · refine ⟨hent, hrej, ?_, himp, hcnt⟩
        intro hmem
        rcases List.mem_append.mp hmem with h1 | h1
        · exact hfail h1
        · have h2 : e = e2 := by simpa using h1
          exact hne h2.symm
    | addEntry e2 =>
      exact ⟨List.mem_append_left _ hent, hrej, hfail, himp, hcnt⟩

theorem entryLive_applySteps {e : EntryId} {steps : List EventStep} {s : FeedState}
    (hs : entryLive e s) (hg : ∀ st ∈ steps, goodStep e st) :
    entryLive e (applySteps s steps) := by
  induction steps generalizing s with
  | nil => exact hs
  | cons st rest ih =>
    exact ih (entryLive_applyStep hs (hg st (List.mem_cons_self _ _)))
      (fun q hq => hg q (List.mem_cons_of_mem _ hq))

theorem mem_accepted_applyStep {e : EntryId} {s : FeedState} (st : EventStep)
    (h : e ∈ s.accepted) : e ∈ (applyStep s st).accepted := by
  cases st with
  | modBoundary => exact h
  | act a =>
    cases a with
    | accept e2 =>
      show e ∈ (Feed.accept s e2).accepted
      rw [Feed.accept]
      split
      · exact h
      · exact List.mem_append_left _ h
    | filter e2 =>
      show e ∈ (Feed.filter s e2).accepted
      rw [Feed.filter]
      split <;> exact h
    | reject e2 =>
      show e ∈ (Feed.reject s e2).accepted
      rw [Feed.reject]
      split <;> exact h
    | fail e2 =>
      show e ∈ (Feed.fail s e2).accepted
      rw [Feed.fail]
      split <;> exact h
    | addEntry e2 => exact h

theorem mem_accepted_applySteps {e : EntryId} {steps : List EventStep} {s : FeedState}
    (h : e ∈ s.accepted) : e ∈ (applySteps s steps).accepted := by
  induction steps generalizing s with
  | nil => exact h
  | cons st rest ih => exact ih (mem_accepted_applyStep st h)

theorem mem_accepted_accept (s : FeedState) (e : EntryId) :
    e ∈ (Feed.accept s e).accepted := by
  rw [Feed.accept]
  split
  · assumption
  · simp

/-- C3: an entry that is filtered by one module during an event and accepted
by a later module in the same event — and never rejected or failed — survives
the end-of-event filtered purge: it is still in `entries`, is in `accepted`,
and is no longer in `filtered`. -/
theorem C3_accept_rescues_filtered (s0 : FeedState) (e : EntryId)
    (pre mid post steps : List EventStep)
    (hsteps : steps = pre ++ EventStep.act (FeedAction.filter e) :: mid
        ++ EventStep.act (FeedAction.accept e) :: post)
    (h0 : e ∈ s0.entries) (hrej : e ∉ s0.rejected) (hfail : e ∉ s0.failed)
    (hacc : e ∉ s0.accepted) (hfil : e ∉ s0.filtered)
    (hg : ∀ st ∈ steps, goodStep e st) :
    e ∈ (Feed.purge_filtered (applySteps s0 steps)).entries
    ∧ e ∈ (Feed.purge_filtered (applySteps s0 steps)).accepted
    ∧ e ∉ (Feed.purge_filtered (applySteps s0 steps)).filtered := by
  subst hsteps
  have hg1 : ∀ st ∈ pre, goodStep e st := fun st h => hg st (by simp [h])
  have hg2 : ∀ st ∈ mid, goodStep e st := fun st h => hg st (by simp [h])
  have hg3 : ∀ st ∈ post, goodStep e st := fun st h => hg st (by simp [h])
  have hgf : goodStep e (EventStep.act (FeedAction.filter e)) := by
    constructor <;> simp
  have hga : goodStep e (EventStep.act (FeedAction.accept e)) := by
    constructor <;> simp
  rw [applySteps_append, applySteps_cons, applySteps_append, applySteps_cons]
  have h1 : entryLive e (applySteps s0 pre) :=
    entryLive_applySteps
      ⟨h0, hrej, hfail, fun h => absurd h hacc,
        by rw [List.count_eq_zero.mpr hfil]; exact Nat.zero_le 1⟩ hg1
  have h2 : entryLive e (applyStep (applySteps s0 pre)
      (EventStep.act (FeedAction.filter e))) :=
    entryLive_applyStep h1 hgf
  have h3 : entryLive e (applySteps (applyStep (applySteps s0 pre)
      (EventStep.act (FeedAction.filter e))) mid) :=
    entryLive_applySteps h2 hg2
  have h4 : entryLive e (applyStep (applySteps (applyStep (applySteps s0 pre)
      (EventStep.act (FeedAction.filter e))) mid) (EventStep.act (FeedAction.accept e))) :=
    entryLive_applyStep h3 hga
  have h4acc : e ∈ (applyStep (applySteps (applyStep (applySteps s0 pre)
      (EventStep.act (FeedAction.filter e))) mid)
      (EventStep.act (FeedAction.accept e))).accepted :=
    mem_accepted_accept _ e
  have h5 := entryLive_applySteps h4 hg3
  have h5acc : e ∈ (applySteps (applyStep (applySteps (applyStep (applySteps s0 pre)
      (EventStep.act (FeedAction.filter e))) mid)
      (EventStep.act (FeedAction.accept e))) post).accepted :=
    mem_accepted_applySteps h4acc
  exact ⟨mem_purge_entries h5.1 (Or.inr h5acc), h5acc, h5.2.2.2.1 h5acc⟩

/-- Witness for C3: single entry 5, one module filters it, the next module
accepts it, with the module boundary purges in between; it survives the
filtered purge. -/
theorem C3_witness :
    5 ∈ (Feed.purge_filtered (applySteps ⟨[5], [], [], [], [], 0, false, []⟩
        [EventStep.act (FeedAction.filter 5), EventStep.modBoundary,
         EventStep.act (FeedAction.accept 5), EventStep.modBoundary])).entries :=
  (C3_accept_rescues_filtered ⟨[5], [], [], [], [], 0, false, []⟩ 5
    [] [EventStep.modBoundary] [EventStep.modBoundary] _ rfl
    (by decide) (by decide) (by decide) (by decide) (by decide) (by decide)).1

/-! ## C1: dispatch order -/

/-- C1 counterexample: two distinct built-in modules with equal effective
priority, registered in the order `a`, `b`.  The claim's tie-break (registry
iteration order) demands dispatch `a` then `b`, but the stable ascending
sort followed by `modules.reverse()` dispatches and invokes `b` first. -/
theorem C1_counterexample :
    Feed.get_priority [] modA "filter" = Feed.get_priority [] modB "filter"
    ∧ (Feed.dispatchOrder [] "filter" [modA, modB]).map FModule.name = ["b", "a"]
    ∧ (Feed.run_event (fun _ => [modA, modB]) [] "filter"
        ⟨[], [], [], [], [], 0, false, []⟩).2 = ["b", "a"]
    ∧ ["b", "a"] ≠ ["a", "b"] := by
  refine ⟨rfl, rfl, rfl, by decide⟩

/-- C1 amended: for every event, the modules are walked in descending
effective-priority order, where the effective priority is the per-task
configured override if the module's config entry is a mapping containing
`priority`, else the declared default for that event, else 0; ties between
equal-priority modules are broken by the reverse of the registry iteration
order. -/
theorem C1_dispatch_order (cfg : Config) (event : String) (ms : List FModule) :
    (Feed.dispatchOrder cfg event ms).Pairwise
      (fun a b => Feed.get_priority cfg b event ≤ Feed.get_priority cfg a event)
    ∧ (Feed.dispatchOrder cfg event ms).Perm ms
    ∧ ∀ a b, Feed.get_priority cfg a event = Feed.get_priority cfg b event →
        List.Sublist [a, b] ms → List.Sublist [b, a] (Feed.dispatchOrder cfg event ms) := by
  haveI : IsTotal FModule (Feed.priorityLE cfg event) := ⟨fun a b => le_total _ _⟩
  haveI : IsTrans FModule (Feed.priorityLE cfg event) := ⟨fun a b c => le_trans⟩
  refine ⟨?_, ?_, ?_⟩
  · rw [Feed.dispatchOrder, List.pairwise_reverse]
    exact List.sorted_insertionSort (Feed.priorityLE cfg event) ms
  · exact ((ms.insertionSort (Feed.priorityLE cfg event)).reverse_perm).trans
      (List.perm_insertionSort (Feed.priorityLE cfg event) ms)
  · intro a b hab hsub
    have h1 : List.Sublist [a, b] (ms.insertionSort (Feed.priorityLE cfg event)) :=
      List.pair_sublist_insertionSort (le_of_eq hab) hsub
    have h2 := h1.reverse
    simpa using h2

/-- Witness for the amended C1: the tie-break conjunct applied to the
concrete equal-priority registry `a`, `b`. -/
theorem C1_witness :
    List.Sublist [modB, modA] (Feed.dispatchOrder [] "filter" [modA, modB]) :=
  (C1_dispatch_order [] "filter" [modA, modB]).2.2 modA modB rfl (List.Sublist.refl _)

/-! ## C2: unhandled error aborts the task -/

theorem applyAction_abortFlag (s : FeedState) (a : FeedAction) :
    (applyAction s a).abortFlag = s.abortFlag := by
  cases a with
  | accept e =>
    show (Feed.accept s e).abortFlag = s.abortFlag
    rw [Feed.accept]
    split <;> rfl
  | filter e =>
    show (Feed.filter s e).abortFlag = s.abortFlag
    rw [Feed.filter]
    split <;> rfl
  | reject e =>
    show (Feed.reject s e).abortFlag = s.abortFlag
    rw [Feed.reject]
    split <;> rfl
  | fail e =>
    show (Feed.fail s e).abortFlag = s.abortFlag
    rw [Feed.fail]
    split <;> rfl
  | addEntry e => rfl

theorem applyActions_abortFlag (s : FeedState) (l : List FeedAction) :
    (applyActions s l).abortFlag = s.abortFlag := by
  induction l generalizing s with
  | nil => rfl
  | cons a rest ih => exact (ih (applyAction s a)).trans (applyAction_abortFlag s a)

/-- One invocation step of `__run_event` on a module whose call raises an
unhandled exception: the abort flag is set and the loop stops at that
module. -/
theorem runModules_exn (cfg : Config) (event : String) (pre : List FModule)
    (m : FModule) (post : List FModule) (s : FeedState)
    (hflag : s.abortFlag = false)
    (hpre : ∀ m2 ∈ pre, Feed.enabled cfg m2 = true → (m2.behavior event).2 ≠ Outcome.exn)
    (hm : Feed.enabled cfg m = true) (hexn : (m.behavior event).2 = Outcome.exn) :
    (Feed.runModules cfg event (pre ++ m :: post) s).1.abortFlag = true
    ∧ (Feed.runModules cfg event (pre ++ m :: post) s).2
        = enabledNames cfg pre ++ [m.name] := by
  induction pre generalizing s with
  | nil =>
    rw [List.nil_append, Feed.runModules, if_pos hm]
    simp only [hexn]
    have : (Feed.purge_failed (Feed.purge_rejected
        (Feed.abortOp (applyActions s (m.behavior event).1)))).abortFlag = true := rfl
    rw [if_pos this]
    exact ⟨this, by simp [enabledNames]⟩
  | cons m2 pre2 ih =>
    rw [List.cons_append, Feed.runModules]
    by_cases hen : Feed.enabled cfg m2 = true
    · rw [if_pos hen]
      have hne := hpre m2 (List.mem_cons_self _ _) hen
      have hs2 : (match (m2.behavior event).2 with
          | Outcome.exn => Feed.abortOp (applyActions s (m2.behavior event).1)
          | _ => applyActions s (m2.behavior event).1)
          = applyActions s (m2.behavior event).1 := by
        cases hr : (m2.behavior event).2 with
        | ok => rfl
        | warning b => rfl
        | exn => exact absurd hr hne
      simp only [hs2]
      have hflag3 : (Feed.purge_failed (Feed.purge_rejected
          (applyActions s (m2.behavior event).1))).abortFlag = false := by
        show (applyActions s (m2.behavior event).1).abortFlag = false
        rw [applyActions_abortFlag]
        exact hflag
      rw [if_neg (by rw [hflag3]; exact Bool.false_ne_true)]
      obtain ⟨h1, h2⟩ := ih _ hflag3 (fun q hq => hpre q (List.mem_cons_of_mem _ hq))
      refine ⟨h1, ?_⟩
      rw [h2]
      simp [enabledNames, hen]
    · rw [if_neg hen]
      obtain ⟨h1, h2⟩ := ih s hflag (fun q hq => hpre q (List.mem_cons_of_mem _ hq))
      refine ⟨h1, ?_⟩
      rw [h2]
      simp [enabledNames, hen]

/-- C2: when a module invocation raises an unhandled error during an event
(and every enabled module sorted before it returns or warns), the task's
abort flag is set, no later module of that event is invoked, and no
subsequent lifecycle event of the run is dispatched: the whole invocation
trace consists of the enabled modules up to and including the failing one,
all within the failing event. -/
theorem C2_unhandled_error_aborts (registry : String → List FModule) (cfg : Config)
    (learn : Bool) (ev : String) (rest : List String) (s : FeedState)
    (pre : List FModule) (m : FModule) (post : List FModule)
    (hflag : s.abortFlag = false)
    (hskip : ¬ (learn = true ∧ (ev = "download" ∨ ev = "output")))
    (hsorted : Feed.dispatchOrder cfg ev (registry ev) = pre ++ m :: post)
    (hpre : ∀ m2 ∈ pre, Feed.enabled cfg m2 = true → (m2.behavior ev).2 ≠ Outcome.exn)
    (hm : Feed.enabled cfg m = true) (hexn : (m.behavior ev).2 = Outcome.exn) :
    (Feed.runEvents registry cfg learn (ev :: rest) s).1.abortFlag = true
    ∧ (Feed.runEvents registry cfg learn (ev :: rest) s).2
        = (enabledNames cfg pre ++ [m.name]).map (fun n => (ev, n))
    ∧ ∀ p ∈ (Feed.runEvents registry cfg learn (ev :: rest) s).2, p.1 = ev := by
  obtain ⟨hrun1, hrun2⟩ := runModules_exn cfg ev pre m post s hflag hpre hm hexn
  have hre : Feed.run_event registry cfg ev s
      = Feed.runModules cfg ev (pre ++ m :: post) s := by
    rw [Feed.run_event, hsorted]
  have habort : (Feed.purge_filtered (Feed.run_event registry cfg ev s).1).abortFlag
      = true := by
    show (Feed.run_event registry cfg ev s).1.abortFlag = true
    rw [hre]
    exact hrun1
  rw [Feed.runEvents, if_neg hskip, if_pos habort]
  refine ⟨habort, ?_, ?_⟩
  · rw [hre, hrun2]
  · intro p hp
    rw [List.mem_map] at hp
    obtain ⟨n, -, hn⟩ := hp
    rw [← hn]

/-- Witness for C2: a single registered module that raises on the first
event of a two-event run; the flag is set and the trace never reaches the
second event. -/
theorem C2_witness :
    (Feed.runEvents (fun _ => [modBoom]) [] false ["input", "filter"]
        ⟨[], [], [], [], [], 0, false, []⟩).1.abortFlag = true
    ∧ (Feed.runEvents (fun _ => [modBoom]) [] false ["input", "filter"]
        ⟨[], [], [], [], [], 0, false, []⟩).2 = [("input", "boom")] :=
  ⟨(C2_unhandled_error_aborts (fun _ => [modBoom]) [] false "input" ["filter"]
      ⟨[], [], [], [], [], 0, false, []⟩ [] modBoom [] rfl (by simp) rfl
      (by simp) rfl rfl).1,
   (C2_unhandled_error_aborts (fun _ => [modBoom]) [] false "input" ["filter"]
      ⟨[], [], [], [], [], 0, false, []⟩ [] modBoom [] rfl (by simp) rfl
      (by simp) rfl rfl).2.1⟩
